import Mathlib

/-
  Verification development for the product-recognition repository
  (SIFT-based catalog matching and video annotation pipeline).

  The Python sources are shallowly embedded:
  * `find_optimal_threshold` (src/api/rest/routes2.py) as a fueled
    bisection loop over an abstract extractor `f : ℚ → ℤ` (the count of
    keypoints returned at a given contrast threshold); the list `evals`
    records, in order, every (midpoint, count) evaluation the loop makes.
  * `SIFTEngine.register_product` / `identify_product`
    (src/ml/models/sift_engine.py) as state transformers over an
    `EngineState`; OpenCV's BFMatcher.knnMatch is an external collaborator
    and is abstracted as a function returning, per reference descriptor,
    the nearest and second-nearest distances; the ratio-test loop is
    translated literally.
  * `SIFTEngine.save_database` as a trace of file-system operations, with
    a crash semantics giving the possible store-file states.
  * `_detect_products_in_video`, `_aggregate_detections`, `_annotate_text`
    and `annotate_text_with_csv` (src/services/video_service.py) over
    rationals for timestamps and ordered association lists for Python
    dicts (dict iteration order is insertion order).
-/

namespace Spec2Proof

/-! ## Threshold calibrator (src/api/rest/routes2.py, find_optimal_threshold) -/

/-- State of the bisection loop in `find_optimal_threshold`.
`evals` is ghost instrumentation: the ordered list of every
(midpoint, count) evaluation of the extractor performed so far;
`best_vis is None` in the Python code holds iff `evals = []`. -/
structure CalibState where
  low : ℚ
  high : ℚ
  bestTh : ℚ
  bestCount : ℤ
  evals : List (ℚ × ℤ)
deriving DecidableEq

/-- One run of `for iteration in range(n)` of `find_optimal_threshold`,
with `f` the extractor count at a given contrast threshold
(`detect_keypoints_vis` on the fixed image and mask).  Returning the
state models `break`. -/
def calibLoop (f : ℚ → ℤ) (target tol : ℤ) : ℕ → CalibState → CalibState
  | 0, s => s
  | Nat.succ n, s =>
    let mid := (s.low + s.high) / 2
    let count := f mid
    let s1 := if s.evals = [] ∨ |count - target| < |s.bestCount - target| then
      { s with bestTh := mid, bestCount := count } else s
    let s2 := { s1 with evals := s1.evals ++ [(mid, count)] }
    if |count - target| ≤ tol then s2
    else if count < target then calibLoop f target tol n { s2 with high := mid }
    else calibLoop f target tol n { s2 with low := mid }

/-- Initial state of `find_optimal_threshold`:
low = 0.001, high = 0.2, best_th = 0.04, best_count = -1, no evaluation yet. -/
def calibInit : CalibState :=
  { low := 1/1000, high := 1/5, bestTh := 1/25, bestCount := -1, evals := [] }

/-- `find_optimal_threshold(cv_image, cv_mask, target_points, tolerance)`:
runs the bisection for at most 8 iterations and returns the final state
(the route returns `(best_th, best_vis, best_count)`; the visualization is
an opaque artifact of the extractor and is not modelled). -/
def find_optimal_threshold (f : ℚ → ℤ) (target tol : ℤ) : CalibState :=
  calibLoop f target tol 8 calibInit

/-- Invariant: the tracked best pair is one of the evaluations made so far
and minimizes the distance to target among them. -/
def CalibBestInv (target : ℤ) (s : CalibState) : Prop :=
  s.evals = [] ∨
    ((s.bestTh, s.bestCount) ∈ s.evals ∧
      ∀ p ∈ s.evals, |s.bestCount - target| ≤ |p.2 - target|)

/-! ## SIFT engine (src/ml/models/sift_engine.py) -/

/-- One entry of `bf.knnMatch(des_ref, des_q, k=2)`: the distances of the
nearest (`d1`) and second-nearest (`d2`) query descriptor to one reference
descriptor.  `BFMatcher` is an external OpenCV collaborator; only the two
distances are consumed by the source. -/
structure MatchPair where
  d1 : ℚ
  d2 : ℚ
deriving DecidableEq

/-- The ratio-test loop of `identify_product`:
`good = [m for m, n in matches if m.distance < 0.75 * n.distance]`;
the score is `len(good)`. -/
def ratioGood (ms : List MatchPair) : ℕ :=
  (ms.filter (fun p => p.d1 < 3/4 * p.d2)).length

/-- A value of the `database` dict:
`{"name": ..., "descriptors": ..., "id": ...}`.  `descriptors` is `Option`
because `detectAndCompute` can return `None` and `identify_product` guards
`product_data.get("descriptors") is None`.  `α` is the abstract type of a
descriptor matrix. -/
structure ProductData (α : Type) where
  name : String
  descriptors : Option α
  id : String
deriving DecidableEq

/-- SIFT extractor configuration `(contrastThreshold, edgeThreshold)`;
`cv2.SIFT_create()` defaults are `(0.04, 10)`. -/
def defaultSiftConfig : ℚ × ℕ := (1/25, 10)

/-- Mutable state of a `SIFTEngine` instance: the configuration of the
single shared `self.sift` extractor, the `database` dict (ordered
association list, Python dict iteration order is insertion order, values
may be `None` as `identify_product` guards for), the `products.csv`
listing, and a counter of `save_database` calls (persistence trace). -/
structure EngineState (α : Type) where
  siftConfig : ℚ × ℕ
  database : List (String × Option (ProductData α))
  csvListing : List (String × String)
  persistCount : ℕ
deriving DecidableEq

/-- Python `dict[key] = value` on an ordered association list: replace in
place if the key exists, else append. -/
def dictPut {β : Type} (k : String) (v : β) : List (String × β) → List (String × β)
  | [] => [(k, v)]
  | (k', v') :: rest =>
    if k = k' then (k, v) :: rest else (k', v') :: dictPut k v rest

/-- `_save_to_csv(product_id, name)`: read the existing listing, set the
entry, rewrite the whole file.  The read-modify-write-all has the same
`dictPut` semantics on the listing. -/
def save_to_csv (product_id name : String) (listing : List (String × String)) :
    List (String × String) :=
  dictPut product_id name listing

/-- `register_product(name, product_id, image_bgr, mask, contrast_threshold,
edge_threshold)`.  `extract cfg img mask` abstracts
`sift.detectAndCompute(gray, mask)` under configuration `cfg` (returning
`none` when OpenCV returns no descriptors; the paired keypoint count is
only used in the success message and is not modelled).  Returns the
`(success, message)` pair and the updated engine state. -/
def register_product {α Img Mask : Type}
    (extract : ℚ × ℕ → Img → Option Mask → Option α)
    (name product_id : String) (image_bgr : Img) (mask : Option Mask)
    (contrast_threshold : ℚ) (edge_threshold : ℕ)
    (s : EngineState α) : (Bool × String) × EngineState α :=
  -- `if contrast_threshold != 0.04 or edge_threshold != 10: self.sift = SIFT_create(...)
  --  else: self.sift = SIFT_create()`
  let cfg := if contrast_threshold ≠ 1/25 ∨ edge_threshold ≠ 10 then
    (contrast_threshold, edge_threshold) else defaultSiftConfig
  let s1 : EngineState α := { s with siftConfig := cfg }
  match extract cfg image_bgr mask with
  | none => ((false, "No features detected in image."), s1)
  | some descriptors =>
    let s2 : EngineState α :=
      { s1 with
        database := dictPut product_id
          (some { name := name, descriptors := some descriptors, id := product_id })
          s1.database
        csvListing := save_to_csv product_id name s1.csvListing
        -- `self.save_database()`
        persistCount := s1.persistCount + 1 }
    ((true, "Registered."), s2)

/-- Score of one `database.items()` entry in the `identify_product` scan:
`0` for the entries the loop `continue`s over (value `None` or missing
descriptors), else the ratio-test count against the query descriptors.
`knn des_ref q` abstracts `bf.knnMatch(des_ref, des_q, k=2)`. -/
def entryScore {α β : Type} (knn : α → β → List MatchPair) (q : β)
    (e : String × Option (ProductData α)) : ℕ :=
  match e.2 with
  | none => 0
  | some pd =>
    match pd.descriptors with
    | none => 0
    | some des_ref => ratioGood (knn des_ref q)

/-- The `for product_id, product_data in self.database.items()` loop of
`identify_product`, carrying `(best_match, max_matches)`. -/
def identifyFold {α β : Type} (knn : α → β → List MatchPair) (q : β) :
    List (String × Option (ProductData α)) →
    Option (String × String) × ℕ → Option (String × String) × ℕ
  | [], acc => acc
  | e :: rest, (best, mx) =>
    match e.2 with
    | none => identifyFold knn q rest (best, mx)
    | some pd =>
      match pd.descriptors with
      | none => identifyFold knn q rest (best, mx)
      | some des_ref =>
        let good := ratioGood (knn des_ref q)
        if mx < good then identifyFold knn q rest (some (pd.name, pd.id), good)
        else identifyFold knn q rest (best, mx)

/-- The tail of `identify_product` once the query descriptors are known:
the scan plus the final `min_match_count` threshold.  Returns
`(best_match, max_matches)` as `(Option (name, id), score)`. -/
def identify_core {α β : Type} (knn : α → β → List MatchPair)
    (database : List (String × Option (ProductData α)))
    (des_q : Option β) (min_match_count : ℕ) : Option (String × String) × ℕ :=
  match des_q with
  | none => (none, 0)
  | some q =>
    let r := identifyFold knn q database (none, 0)
    if min_match_count ≤ r.2 then r else (none, r.2)

/-- `identify_product(query_image_bgr, min_match_count)`: extracts the
query descriptors with the engine's current shared `self.sift`
configuration (`extract s.siftConfig query none`), then scans the
database. -/
def identify_product {α Img Mask : Type}
    (extract : ℚ × ℕ → Img → Option Mask → Option α)
    (knn : α → α → List MatchPair)
    (s : EngineState α) (query_image_bgr : Img) (min_match_count : ℕ) :
    Option (String × String) × ℕ :=
  identify_core knn s.database (extract s.siftConfig query_image_bgr none) min_match_count

/-- The winning (maximum) ratio-test score over the whole catalog, with the
skipped entries contributing `0` exactly as `max_matches` starts at `0`. -/
def winningScore {α β : Type} (knn : α → β → List MatchPair) (q : β)
    (database : List (String × Option (ProductData α))) : ℕ :=
  database.foldl (fun m e => max m (entryScore knn q e)) 0

/-- The `(name, id)` pair stored into `best_match` for an entry, when the
entry has product data. -/
def prodInfo {α : Type} : String × Option (ProductData α) → Option (String × String)
  | (_, none) => none
  | (_, some pd) => some (pd.name, pd.id)

/-! ## Persistence trace of `save_database` (src/ml/models/sift_engine.py) -/

/-- A file-system operation performed by the engine's persistence code.
`writeWholeFile p` is a plain (non-atomic) data write to path `p` —
a crash may leave `p` half-written; `renameFile src dst` is an atomic
rename. -/
inductive FsOp where
  | writeWholeFile : String → FsOp
  | renameFile : String → String → FsOp
deriving DecidableEq

/-- Possible contents of the store file as observed after a crash. -/
inductive StoreFileState where
  | oldContent
  | halfWritten
  | newContent
deriving DecidableEq

/-- Effect of a completed operation on the store file at path `store`. -/
def applyFsOp (store : String) : FsOp → StoreFileState → StoreFileState
  | FsOp.writeWholeFile p, s => if p = store then StoreFileState.newContent else s
  | FsOp.renameFile _ dst, s => if dst = store then StoreFileState.newContent else s

/-- All states the store file can be left in if the process crashes at any
point while executing `ops` (before, during, or after each operation):
a crash in the middle of a non-atomic write to the store path can leave it
half-written; a rename is atomic. -/
def crashStates (store : String) : List FsOp → StoreFileState → List StoreFileState
  | [], s => [s]
  | op :: rest, s =>
    (match op with
      | FsOp.writeWholeFile p =>
        if p = store then [s, StoreFileState.halfWritten] else [s]
      | FsOp.renameFile _ _ => [s]) ++
      crashStates store rest (applyFsOp store op s)

/-- `save_database`: `joblib.dump(self.database, self.storage_path)` — a
single direct write to the storage path, with no temporary file and no
rename.  (The subsequent MLflow block only reads the file.) -/
def save_database_ops (storage_path : String) : List FsOp :=
  [FsOp.writeWholeFile storage_path]

/-- Modelled from the spec: the write-then-rename persistence mechanism
(`persist` "must be atomic with respect to process crashes:
write-then-rename or equivalent"), absent from the source, used here only
as the contrast the claim may be compared against. -/
def write_then_rename_ops (tmp storage_path : String) : List FsOp :=
  [FsOp.writeWholeFile tmp, FsOp.renameFile tmp storage_path]

/-! ## Video pipeline (src/services/video_service.py) -/

/-- A raw per-frame detection `{"time": ..., "skus": [...]}`. -/
structure Detection where
  time : ℚ
  skus : List String
deriving DecidableEq

/-- An aggregated window `{"start": ..., "end": ..., "skus": [...]}`
(`stop` stands for the Python key `"end"`, a Lean keyword). -/
structure AggWindow where
  start : ℚ
  stop : ℚ
  skus : List String
deriving DecidableEq

/-- Python `round(x, 2)` under exact arithmetic: round to 2 decimal
places, ties to even. -/
def round2 (q : ℚ) : ℚ :=
  let x := q * 100
  let n := ⌊x⌋
  let frac := x - n
  let r : ℤ :=
    if frac < 1/2 then n
    else if 1/2 < frac then n + 1
    else if n % 2 = 0 then n else n + 1
  (r : ℚ) / 100

/-- The per-frame product scan of `_detect_products_in_video`: every
database entry with descriptors whose ratio-test score reaches
`min_matches` contributes its `product_name` to `visible`, in database
order.  (`bf.knnMatch` is abstracted by `knn` as in `identify_product`;
the `len(pair) < 2` guard is absorbed by `knn` returning only complete
distance pairs.) -/
def visibleProducts {α β : Type} (knn : α → β → List MatchPair)
    (db : List (String × Option (ProductData α))) (q : β) (min_matches : ℕ) :
    List String :=
  db.filterMap (fun e =>
    match e.2 with
    | none => none
    | some pd =>
      match pd.descriptors with
      | none => none
      | some des_ref =>
        if min_matches ≤ ratioGood (knn des_ref q) then some pd.name else none)

/-- The frame loop of `_detect_products_in_video` (the second, effective
definition in video_service.py, lines 165-219): frame `i` has timestamp
`i / fps`; a frame is processed when
`int(time_sec) % frame_every_seconds == 0`; a processed frame with
descriptors (`frames` holds `some q` when `detectAndCompute` returns
descriptors for that frame, `none` otherwise) and a non-empty `visible`
list appends one `Detection` at `round(time_sec, 2)`. -/
def detectLoop {α β : Type} (knn : α → β → List MatchPair)
    (db : List (String × Option (ProductData α))) (fps : ℚ)
    (everyN : ℤ) (min_matches : ℕ) : ℕ → List (Option β) → List Detection
  | _, [] => []
  | i, f :: rest =>
    (if ⌊(i : ℚ) / fps⌋ % everyN = 0 then
      match f with
      | none => []
      | some q =>
        let visible := visibleProducts knn db q min_matches
        if visible = [] then []
        else [{ time := round2 ((i : ℚ) / fps), skus := visible }]
    else []) ++ detectLoop knn db fps everyN min_matches (i + 1) rest

/-- `_detect_products_in_video(video_path, sift_engine, frame_every_seconds,
min_matches)` on a decoded stream of frames. -/
def detect_products_in_video {α β : Type} (knn : α → β → List MatchPair)
    (db : List (String × Option (ProductData α))) (fps : ℚ)
    (frames : List (Option β)) (frame_every_seconds : ℤ) (min_matches : ℕ) :
    List Detection :=
  detectLoop knn db fps frame_every_seconds min_matches 0 frames

/-- The same loop with the sampling guard removed: every decoded frame is
processed.  Used to state that the guard is vacuous at the default
`frame_every_seconds = 1`. -/
def detectLoopEveryFrame {α β : Type} (knn : α → β → List MatchPair)
    (db : List (String × Option (ProductData α))) (fps : ℚ)
    (min_matches : ℕ) : ℕ → List (Option β) → List Detection
  | _, [] => []
  | i, f :: rest =>
    (match f with
      | none => []
      | some q =>
        let visible := visibleProducts knn db q min_matches
        if visible = [] then []
        else [{ time := round2 ((i : ℚ) / fps), skus := visible }]) ++
      detectLoopEveryFrame knn db fps min_matches (i + 1) rest

/-! ### Temporal aggregation (`_aggregate_detections`) -/

/-- `counter[sku] += 1` on an insertion-ordered counter
(`defaultdict(int)` iterates in insertion order). -/
def bumpCount (k : String) : List (String × ℕ) → List (String × ℕ)
  | [] => [(k, 1)]
  | (k', c) :: rest =>
    if k = k' then (k', c + 1) :: rest else (k', c) :: bumpCount k rest

/-- The vote counter of one window:
`for skus in sku_lists: for sku in skus: counter[sku] += 1`. -/
def countSkus (sku_lists : List (List String)) : List (String × ℕ) :=
  sku_lists.foldl (fun acc skus => skus.foldl (fun a s => bumpCount s a) acc) []

/-- `windows[window_id].append(det["skus"])` on an insertion-ordered
`defaultdict(list)`. -/
def updWindow (k : ℤ) (v : List String) :
    List (ℤ × List (List String)) → List (ℤ × List (List String))
  | [] => [(k, [v])]
  | (k', vs) :: rest =>
    if k = k' then (k', vs ++ [v]) :: rest else (k', vs) :: updWindow k v rest

/-- The bucketing loop of `_aggregate_detections`:
`window_id = int(det["time"] // window_size)`. -/
def buildWindows (window_size : ℚ) (dets : List Detection) :
    List (ℤ × List (List String)) :=
  dets.foldl (fun acc det => updWindow ⌊det.time / window_size⌋ det.skus acc) []

/-- The per-window body of `_aggregate_detections`: count votes, keep skus
with `count >= min_frames`, emit the window only if any survive. -/
def windowOut (window_size : ℚ) (min_frames : ℕ) (entry : ℤ × List (List String)) :
    Option AggWindow :=
  let final_skus := ((countSkus entry.2).filter (fun p => min_frames ≤ p.2)).map Prod.fst
  if final_skus = [] then none
  else some { start := (entry.1 : ℚ) * window_size,
              stop := ((entry.1 : ℚ) + 1) * window_size,
              skus := final_skus }

/-- `_aggregate_detections(detections, window_size=1.0, min_frames=5)`. -/
def aggregate_detections (dets : List Detection) (window_size : ℚ)
    (min_frames : ℕ) : List AggWindow :=
  (buildWindows window_size dets).filterMap (windowOut window_size min_frames)

/-- Reading an aggregated window back as a detection at its start time,
the only way the output of `_aggregate_detections` (keyed `start`/`end`)
can be fed to its input (keyed `time`). -/
def windowsToDetections (ws : List AggWindow) : List Detection :=
  ws.map (fun w => { time := w.start, skus := w.skus })

/-! ### Transcript annotator (`_annotate_text`) -/

/-- `{"start": ..., "end": ..., "text": ...}` transcript segment. -/
structure TranscriptSegment where
  start : ℚ
  stop : ℚ
  text : String
deriving DecidableEq

/-- Python `str.isspace` members split on by `str.split()`. -/
def isPyWs (c : Char) : Bool :=
  c = ' ' ∨ c = '\t' ∨ c = '\n' ∨ c = '\r' ∨ c = '\x0b' ∨ c = '\x0c'

/-- `text.split()`: split on runs of whitespace, dropping empty pieces. -/
def splitWsAux : List Char → List Char → List (List Char)
  | [], cur => if cur = [] then [] else [cur.reverse]
  | c :: rest, cur =>
    if isPyWs c then
      if cur = [] then splitWsAux rest [] else cur.reverse :: splitWsAux rest []
    else splitWsAux rest (c :: cur)

/-- `len(text.split())`. -/
def countWords (text : String) : ℕ :=
  (splitWsAux text.toList []).length

/-- The overlap test of `_annotate_text`:
`not (seg["end"] < det["start"] or seg["start"] > det["end"])`. -/
def overlapsWindow (seg : TranscriptSegment) (det : AggWindow) : Bool :=
  ¬(seg.stop < det.start ∨ det.stop < seg.start)

/-- The window loop of `_annotate_text` for one segment: the sku counter
over overlapping windows and the number of overlapping windows. -/
def segmentCounts (seg : TranscriptSegment) (detections : List AggWindow) :
    List (String × ℕ) × ℕ :=
  detections.foldl
    (fun acc det =>
      if overlapsWindow seg det then
        (det.skus.foldl (fun a s => bumpCount s a) acc.1, acc.2 + 1)
      else acc)
    ([], 0)

/-- Stable ascending insertion by `<` on strings (Python `sorted`). -/
def insertAsc (s : String) : List String → List String
  | [] => [s]
  | x :: rest => if x < s then x :: insertAsc s rest else s :: x :: rest

/-- Python `sorted(final_skus)`. -/
def sortedStrings (l : List String) : List String :=
  l.foldr insertAsc []

/-- Python `sep.join(parts)`. -/
def joinSep (sep : String) : List String → String
  | [] => ""
  | [x] => x
  | x :: rest => x ++ sep ++ joinSep sep rest

/-- The body of the segment loop of `_annotate_text`: pass short segments
through unchanged; otherwise keep skus whose presence ratio over the
overlapping windows reaches `min_presence` and append the marker text. -/
def processSegment (detections : List AggWindow) (min_words_text : ℕ)
    (min_presence : ℚ) (seg : TranscriptSegment) : String :=
  if countWords seg.text < min_words_text then seg.text
  else
    let counts := segmentCounts seg detections
    let final_skus := (counts.1.filter
      (fun p => min_presence ≤ (p.2 : ℚ) / (max counts.2 1 : ℕ))).map Prod.fst
    if final_skus = [] then seg.text
    else
      seg.text ++ " (" ++
        joinSep ", " ((sortedStrings final_skus).map (fun s => "SKU:" ++ s)) ++ ")"

/-- `final_parts` of `_annotate_text`: one output part per segment, in
order (the loop carries no state across segments). -/
def annotateParts (segments : List TranscriptSegment) (detections : List AggWindow)
    (min_words_text : ℕ) (min_presence : ℚ) : List String :=
  segments.map (processSegment detections min_words_text min_presence)

/-- `_annotate_text(segments, detections, min_words_text=4,
min_presence_ratio=0.6)`: the final `" ".join(final_parts)`. -/
def annotate_text (segments : List TranscriptSegment) (detections : List AggWindow)
    (min_words_text : ℕ) (min_presence : ℚ) : String :=
  joinSep " " (annotateParts segments detections min_words_text min_presence)

/-! ### Catalog-name annotator (`annotate_text_with_csv`) -/

/-- Regex `\w` over the ASCII inputs at hand: letters, digits, underscore. -/
def isWordChar (c : Char) : Bool :=
  c.isAlphanum || c = '_'

/-- Whether the character at index `i` of `t` is a word character
(out of range counts as non-word). -/
def wordAt (t : List Char) (i : ℕ) : Bool :=
  isWordChar (t.getD i ' ')

/-- Regex `\b` at position `p` (`0 ≤ p ≤ t.length`): exactly one side of
the position is a word character. -/
def boundaryAt (t : List Char) (p : ℕ) : Bool :=
  (if p = 0 then false else wordAt t (p - 1)) != wordAt t p

/-- Character comparison under `re.IGNORECASE` (`cs = false`) or exact
(`cs = true`). -/
def charEq (cs : Bool) (a b : Char) : Bool :=
  if cs then a = b else a.toLower = b.toLower

/-- The pattern `\b re.escape(name) \b` matches `t` at start index `i`. -/
def matchAt (cs : Bool) (name t : List Char) (i : ℕ) : Bool :=
  ((t.drop i).take name.length).length = name.length &&
    (name.zip ((t.drop i).take name.length)).all (fun p => charEq cs p.1 p.2) &&
    boundaryAt t i && boundaryAt t (i + name.length)

/-- `re.finditer` scan: left to right, continuing after the end of each
match (matches of one pattern are non-overlapping). -/
def findMatchesAux (cs : Bool) (name t : List Char) : ℕ → ℕ → List ℕ
  | 0, _ => []
  | fuel + 1, i =>
    if matchAt cs name t i then i :: findMatchesAux cs name t fuel (i + name.length)
    else findMatchesAux cs name t fuel (i + 1)

/-- Start indices of all matches of `\b name \b` in `t`. -/
def findMatches (cs : Bool) (name t : List Char) : List ℕ :=
  if name = [] then [] else findMatchesAux cs name t (t.length + 1) 0

/-- Python `pat in s` on the modelled text. -/
def containsSub (pat t : List Char) : Bool :=
  (List.range (t.length + 1)).any (fun i => (t.drop i).take pat.length = pat)

/-- The per-product pass of `annotate_text_with_csv`: find all matches of
the product name, then walk them in reverse text order, inserting
` (SKU:id)` after a match unless `"(SKU:"` already occurs within the next
50 characters of the current text. -/
def annotateProduct (cs : Bool) (product_id product_name : String)
    (t : List Char) : List Char :=
  let ms := findMatches cs product_name.toList t
  ms.reverse.foldl
    (fun txt s =>
      let e := s + product_name.toList.length
      if containsSub "(SKU:".toList ((txt.drop e).take 50) then txt
      else txt.take e ++ (" (SKU:" ++ product_id ++ ")").toList ++ txt.drop e)
    t

/-- Stable insertion for Python's
`products.sort(key=lambda p: len(p['name']), reverse=True)`:
descending by name length, equal lengths keeping CSV order.
Entries are `(product_id, name)` pairs. -/
def insertByNameLenDesc (p : String × String) :
    List (String × String) → List (String × String)
  | [] => [p]
  | q :: rest =>
    if q.2.length ≤ p.2.length then p :: q :: rest else q :: insertByNameLenDesc p rest

/-- The length-descending stable sort of the catalog listing. -/
def sortByNameLenDesc (ps : List (String × String)) : List (String × String) :=
  ps.foldr insertByNameLenDesc []

/-- `annotate_text_with_csv(text, csv_path, case_sensitive=False)` with
the parsed `{product_id, name}` listing supplied directly (file reading is
an external concern; an absent or empty catalog returns the text
unchanged). -/
def annotate_text_with_csv (products : List (String × String)) (text : String)
    (case_sensitive : Bool) : String :=
  if products = [] then text
  else
    String.mk ((sortByNameLenDesc products).foldl
      (fun t p => annotateProduct case_sensitive p.1 p.2 t) text.toList)


/-! ## Lemmas and theorems -/

/-! ### Calibrator lemmas -/

theorem calibLoop_evals_len_or_tol (f : ℚ → ℤ) (target tol : ℤ) :
    ∀ (n : ℕ) (s : CalibState),
      (calibLoop f target tol n s).evals.length = s.evals.length + n ∨
        |(calibLoop f target tol n s).bestCount - target| ≤ tol := by
  intro n
  induction n with
  | zero => intro s; exact Or.inl rfl
  | succ n ih =>
    intro s
    simp only [calibLoop]
    set mid := (s.low + s.high) / 2 with hmid
    set count := f mid with hcount
    by_cases htol : |count - target| ≤ tol
    · simp only [htol, if_pos]
      by_cases hupd : s.evals = [] ∨ |count - target| < |s.bestCount - target|
      · simp only [hupd, if_pos]
        exact Or.inr htol
      · simp only [hupd, if_neg, not_false_iff]
        push_neg at hupd
        exact Or.inr (le_trans hupd.2 htol)
    · simp only [htol, if_neg, not_false_iff]
      by_cases hlt : count < target
      · simp only [hlt, if_pos]
        rcases ih _ with h | h
        · left
          rw [h]
          by_cases hupd : s.evals = [] ∨ |count - target| < |s.bestCount - target| <;>
            simp [hupd, List.length_append] <;> omega
        · exact Or.inr h
      · simp only [hlt, if_neg, not_false_iff]
        rcases ih _ with h | h
        · left
          rw [h]
          by_cases hupd : s.evals = [] ∨ |count - target| < |s.bestCount - target| <;>
            simp [hupd, List.length_append] <;> omega
        · exact Or.inr h

theorem calibLoop_early_stop (f : ℚ → ℤ) (target tol : ℤ) :
    ∀ (n : ℕ) (s : CalibState),
      (∀ p ∈ s.evals, tol < |p.2 - target|) →
      ∀ p ∈ (calibLoop f target tol n s).evals.dropLast, tol < |p.2 - target| := by
  intro n
  induction n with
  | zero =>
    intro s hs p hp
    exact hs p (List.dropLast_sublist _ |>.mem hp)
  | succ n ih =>
    intro s hs
    simp only [calibLoop]
    set mid := (s.low + s.high) / 2 with hmid
    set count := f mid with hcount
    have hevals :
        ((if s.evals = [] ∨ |count - target| < |s.bestCount - target| then
          { s with bestTh := mid, bestCount := count } else s).evals) = s.evals := by
      by_cases h : s.evals = [] ∨ |count - target| < |s.bestCount - target| <;> simp [h]
    by_cases htol : |count - target| ≤ tol
    · simp only [htol, if_pos]
      intro p hp
      rw [hevals, List.dropLast_concat] at hp
      exact hs p hp
    · simp only [htol, if_neg, not_false_iff]
      push_neg at htol
      have hs2 : ∀ p ∈ (s.evals ++ [(mid, count)]), tol < |p.2 - target| := by
        intro p hp
        rcases List.mem_append.mp hp with h | h
        · exact hs p h
        · simp only [List.mem_singleton] at h
          subst h
          exact htol
      by_cases hlt : count < target
      · simp only [hlt, if_pos]
        refine ih _ ?_
        rw [hevals]
        exact hs2
      · simp only [hlt, if_neg, not_false_iff]
        refine ih _ ?_
        rw [hevals]
        exact hs2

theorem calibLoop_best_inv (f : ℚ → ℤ) (target tol : ℤ) :
    ∀ (n : ℕ) (s : CalibState), CalibBestInv target s →
      CalibBestInv target (calibLoop f target tol n s) := by
  intro n
  induction n with
  | zero => intro s hs; exact hs
  | succ n ih =>
    intro s hs
    simp only [calibLoop]
    set mid := (s.low + s.high) / 2 with hmid
    set count := f mid with hcount
    have hstep : CalibBestInv target
        { (if s.evals = [] ∨ |count - target| < |s.bestCount - target| then
            { s with bestTh := mid, bestCount := count } else s) with
          evals := (if s.evals = [] ∨ |count - target| < |s.bestCount - target| then
            { s with bestTh := mid, bestCount := count } else s).evals ++ [(mid, count)] } := by
      by_cases hupd : s.evals = [] ∨ |count - target| < |s.bestCount - target|
      · simp only [hupd, if_pos]
        right
        constructor
        · simp
        · intro p hp
          rcases List.mem_append.mp hp with h | h
          · rcases hupd with hnil | hbetter
            · rw [hnil] at h
              simp at h
            · rcases hs with hnil | ⟨_, hmin⟩
              · rw [hnil] at h
                simp at h
              · exact le_trans (le_of_lt hbetter) (hmin p h)
          · simp only [List.mem_singleton] at h
            subst h
            exact le_refl _
      · simp only [hupd, if_neg, not_false_iff]
        push_neg at hupd
        obtain ⟨hne, hge⟩ := hupd
        rcases hs with hnil | ⟨hmem, hmin⟩
        · exact absurd hnil hne
        · right
          constructor
          · exact List.mem_append.mpr (Or.inl hmem)
          · intro p hp
            rcases List.mem_append.mp hp with h | h
            · exact hmin p h
            · simp only [List.mem_singleton] at h
              subst h
              exact hge
    by_cases htol : |count - target| ≤ tol
    · simp only [htol, if_pos]
      exact hstep
    · simp only [htol, if_neg, not_false_iff]
      by_cases hlt : count < target
      · simp only [hlt, if_pos]
        exact ih _ hstep
      · simp only [hlt, if_neg, not_false_iff]
        exact ih _ hstep

theorem calibLoop_evals_ne_nil (f : ℚ → ℤ) (target tol : ℤ) :
    ∀ (n : ℕ) (s : CalibState), s.evals ≠ [] →
      (calibLoop f target tol n s).evals ≠ [] := by
  intro n
  induction n with
  | zero => intro s hs; exact hs
  | succ n ih =>
    intro s _
    simp only [calibLoop]
    set mid := (s.low + s.high) / 2 with hmid
    set count := f mid with hcount
    have hne : ((if s.evals = [] ∨ |count - target| < |s.bestCount - target| then
        { s with bestTh := mid, bestCount := count } else s).evals ++ [(mid, count)]) ≠ [] := by
      simp
    by_cases htol : |count - target| ≤ tol
    · simp only [htol, if_pos]
      exact hne
    · simp only [htol, if_neg, not_false_iff]
      by_cases hlt : count < target
      · simp only [hlt, if_pos]
        exact ih _ hne
      · simp only [hlt, if_neg, not_false_iff]
        exact ih _ hne

theorem calibLoop_succ_evals_ne_nil (f : ℚ → ℤ) (target tol : ℤ) (n : ℕ) (s : CalibState) :
    (calibLoop f target tol (n + 1) s).evals ≠ [] := by
  simp only [calibLoop]
  set mid := (s.low + s.high) / 2 with hmid
  set count := f mid with hcount
  have hne : ((if s.evals = [] ∨ |count - target| < |s.bestCount - target| then
      { s with bestTh := mid, bestCount := count } else s).evals ++ [(mid, count)]) ≠ [] := by
    simp
  by_cases htol : |count - target| ≤ tol
  · simp only [htol, if_pos]
    exact hne
  · simp only [htol, if_neg, not_false_iff]
    by_cases hlt : count < target
    · simp only [hlt, if_pos]
      exact calibLoop_evals_ne_nil f target tol n _ hne
    · simp only [hlt, if_neg, not_false_iff]
      exact calibLoop_evals_ne_nil f target tol n _ hne

/-! ### Identify scan lemmas -/

theorem foldl_max_ge_init {γ : Type} (g : γ → ℕ) :
    ∀ (l : List γ) (m : ℕ), m ≤ l.foldl (fun a e => max a (g e)) m := by
  intro l
  induction l with
  | nil => intro m; exact le_refl m
  | cons e rest ih =>
    intro m
    exact le_trans (le_max_left m (g e)) (ih (max m (g e)))

theorem foldl_max_ge_mem {γ : Type} (g : γ → ℕ) :
    ∀ (l : List γ) (m : ℕ) (e : γ), e ∈ l → g e ≤ l.foldl (fun a x => max a (g x)) m := by
  intro l
  induction l with
  | nil => intro m e he; simp at he
  | cons x rest ih =>
    intro m e he
    rcases List.mem_cons.mp he with h | h
    · subst h
      exact le_trans (le_max_right m (g e)) (foldl_max_ge_init g rest _)
    · exact ih _ e h

theorem foldl_max_eq_init_or_mem {γ : Type} (g : γ → ℕ) :
    ∀ (l : List γ) (m : ℕ),
      l.foldl (fun a x => max a (g x)) m = m ∨
        ∃ e ∈ l, g e = l.foldl (fun a x => max a (g x)) m := by
  intro l
  induction l with
  | nil => intro m; exact Or.inl rfl
  | cons x rest ih =>
    intro m
    simp only [List.foldl_cons]
    rcases ih (max m (g x)) with h | ⟨e, he, hge⟩
    · rcases max_choice m (g x) with hm | hm
      · left
        rw [h, hm]
      · right
        exact ⟨x, List.mem_cons_self x rest, by rw [h, hm]⟩
    · exact Or.inr ⟨e, List.mem_cons_of_mem x he, hge⟩

theorem identifyFold_spec {α β : Type} (knn : α → β → List MatchPair) (q : β) :
    ∀ (l : List (String × Option (ProductData α)))
      (best : Option (String × String)) (mx : ℕ),
      (identifyFold knn q l (best, mx)).2 =
          l.foldl (fun m e => max m (entryScore knn q e)) mx ∧
        ((∀ e ∈ l, entryScore knn q e ≤ mx) →
          identifyFold knn q l (best, mx) = (best, mx)) ∧
        ((∃ e ∈ l, mx < entryScore knn q e) →
          (identifyFold knn q l (best, mx)).1 =
            (l.find? (fun e =>
              entryScore knn q e == (identifyFold knn q l (best, mx)).2)).bind prodInfo) := by
  intro l
  induction l with
  | nil =>
    intro best mx
    refine ⟨rfl, fun _ => rfl, fun h => ?_⟩
    simp at h
  | cons e rest ih =>
    intro best mx
    obtain ⟨pid, pdOpt⟩ := e
    have hskip : ∀ (hscore : entryScore knn q (pid, pdOpt) = 0)
        (hfold : identifyFold knn q ((pid, pdOpt) :: rest) (best, mx) =
          identifyFold knn q rest (best, mx)),
        (identifyFold knn q ((pid, pdOpt) :: rest) (best, mx)).2 =
            ((pid, pdOpt) :: rest).foldl (fun m e => max m (entryScore knn q e)) mx ∧
          ((∀ e ∈ (pid, pdOpt) :: rest, entryScore knn q e ≤ mx) →
            identifyFold knn q ((pid, pdOpt) :: rest) (best, mx) = (best, mx)) ∧
          ((∃ e ∈ (pid, pdOpt) :: rest, mx < entryScore knn q e) →
            (identifyFold knn q ((pid, pdOpt) :: rest) (best, mx)).1 =
              (((pid, pdOpt) :: rest).find? (fun e =>
                entryScore knn q e ==
                  (identifyFold knn q ((pid, pdOpt) :: rest) (best, mx)).2)).bind prodInfo) := by
      intro hscore hfold
      obtain ⟨iha, ihb, ihc⟩ := ih best mx
      rw [hfold]
      refine ⟨?_, ?_, ?_⟩
      · rw [iha]
        simp [hscore]
      · intro hall
        exact ihb fun e' he' => hall e' (List.mem_cons_of_mem _ he')
      · intro hex
        obtain ⟨w, hw, hwgt⟩ := hex
        rcases List.mem_cons.mp hw with hw0 | hw'
        · rw [hw0, hscore] at hwgt
          omega
        · have hgt : mx < (identifyFold knn q rest (best, mx)).2 := by
            rw [iha]
            exact lt_of_lt_of_le hwgt (foldl_max_ge_mem _ rest mx w hw')
          have hfind : List.find? (fun e => entryScore knn q e ==
                (identifyFold knn q rest (best, mx)).2) ((pid, pdOpt) :: rest) =
              List.find? (fun e => entryScore knn q e ==
                (identifyFold knn q rest (best, mx)).2) rest :=
            List.find?_cons_of_neg _ (by simp only [hscore, beq_iff_eq]; omega)
          rw [hfind]
          exact ihc ⟨w, hw', hwgt⟩
    match pdOpt with
    | none =>
      exact hskip rfl rfl
    | some pd =>
      match hdes : pd.descriptors with
      | none =>
        have hscore : entryScore knn q (pid, some pd) = 0 := by
          simp [entryScore, hdes]
        have hfold : identifyFold knn q ((pid, some pd) :: rest) (best, mx) =
            identifyFold knn q rest (best, mx) := by
          simp [identifyFold, hdes]
        exact hskip hscore hfold
      | some des_ref =>
        have hscore : entryScore knn q (pid, some pd) = ratioGood (knn des_ref q) := by
          simp [entryScore, hdes]
        by_cases hgt : mx < ratioGood (knn des_ref q)
        · have hfold : identifyFold knn q ((pid, some pd) :: rest) (best, mx) =
              identifyFold knn q rest (some (pd.name, pd.id), ratioGood (knn des_ref q)) := by
            simp [identifyFold, hdes, hgt]
          obtain ⟨iha, ihb, ihc⟩ := ih (some (pd.name, pd.id)) (ratioGood (knn des_ref q))
          rw [hfold]
          have hmax : max mx (ratioGood (knn des_ref q)) = ratioGood (knn des_ref q) :=
            max_eq_right (le_of_lt hgt)
          refine ⟨?_, ?_, ?_⟩
          · rw [iha]
            simp [hscore, hmax]
          · intro hall
            exact absurd (hall _ (List.mem_cons_self _ _)) (by rw [hscore]; omega)
          · intro _
            by_cases hrest : ∀ e ∈ rest, entryScore knn q e ≤ ratioGood (knn des_ref q)
            · rw [ihb hrest]
              have hfind : List.find? (fun e => entryScore knn q e ==
                    (some (pd.name, pd.id), ratioGood (knn des_ref q)).2)
                  ((pid, some pd) :: rest) = some (pid, some pd) :=
                List.find?_cons_of_pos _ (by simp [hscore])
              rw [hfind]
              rfl
            · push_neg at hrest
              obtain ⟨w, hw, hwgt⟩ := hrest
              have hgt2 : ratioGood (knn des_ref q) <
                  (identifyFold knn q rest (some (pd.name, pd.id),
                    ratioGood (knn des_ref q))).2 := by
                rw [iha]
                exact lt_of_lt_of_le hwgt (foldl_max_ge_mem _ rest _ w hw)
              have hfind : List.find? (fun e => entryScore knn q e ==
                    (identifyFold knn q rest (some (pd.name, pd.id),
                      ratioGood (knn des_ref q))).2) ((pid, some pd) :: rest) =
                  List.find? (fun e => entryScore knn q e ==
                    (identifyFold knn q rest (some (pd.name, pd.id),
                      ratioGood (knn des_ref q))).2) rest :=
                List.find?_cons_of_neg _ (by simp only [hscore, beq_iff_eq]; omega)
              rw [hfind]
              exact ihc ⟨w, hw, hwgt⟩
        · push_neg at hgt
          have hfold : identifyFold knn q ((pid, some pd) :: rest) (best, mx) =
              identifyFold knn q rest (best, mx) := by
            simp [identifyFold, hdes, not_lt.mpr hgt]
          obtain ⟨iha, ihb, ihc⟩ := ih best mx
          rw [hfold]
          have hmax : max mx (ratioGood (knn des_ref q)) = mx := max_eq_left hgt
          refine ⟨?_, ?_, ?_⟩
          · rw [iha]
            simp [hscore, hmax]
          · intro hall
            exact ihb fun e' he' => hall e' (List.mem_cons_of_mem _ he')
          · intro hex
            obtain ⟨w, hw, hwgt⟩ := hex
            rcases List.mem_cons.mp hw with hw0 | hw'
            · rw [hw0, hscore] at hwgt
              omega
            · have hgt2 : mx < (identifyFold knn q rest (best, mx)).2 := by
                rw [iha]
                exact lt_of_lt_of_le hwgt (foldl_max_ge_mem _ rest mx w hw')
              have hfind : List.find? (fun e => entryScore knn q e ==
                    (identifyFold knn q rest (best, mx)).2) ((pid, some pd) :: rest) =
                  List.find? (fun e => entryScore knn q e ==
                    (identifyFold knn q rest (best, mx)).2) rest :=
                List.find?_cons_of_neg _ (by simp only [hscore, beq_iff_eq]; omega)
              rw [hfind]
              exact ihc ⟨w, hw', hwgt⟩

theorem prodInfo_isSome_of_score_pos {α β : Type} (knn : α → β → List MatchPair) (q : β)
    (e : String × Option (ProductData α)) (h : 1 ≤ entryScore knn q e) :
    (prodInfo e).isSome = true := by
  obtain ⟨pid, pdOpt⟩ := e
  match pdOpt with
  | none => simp [entryScore] at h
  | some pd =>
    match hdes : pd.descriptors with
    | none => simp [entryScore, hdes] at h
    | some _ => simp [prodInfo]

/-! ### Aggregation lemmas -/

theorem updWindow_of_mem (k : ℤ) (v : List String) :
    ∀ acc : List (ℤ × List (List String)), k ∈ acc.map Prod.fst →
      (updWindow k v acc).map Prod.fst = acc.map Prod.fst := by
  intro acc
  induction acc with
  | nil => intro h; simp at h
  | cons e rest ih =>
    intro h
    obtain ⟨k', vs⟩ := e
    by_cases hk : k = k'
    · simp [updWindow, hk]
    · simp only [List.map_cons, List.mem_cons] at h
      rcases h with h | h
      · exact absurd h hk
      · simp [updWindow, hk, ih h]

theorem updWindow_of_not_mem (k : ℤ) (v : List String) :
    ∀ acc : List (ℤ × List (List String)), k ∉ acc.map Prod.fst →
      updWindow k v acc = acc ++ [(k, [v])] := by
  intro acc
  induction acc with
  | nil => intro _; rfl
  | cons e rest ih =>
    intro h
    obtain ⟨k', vs⟩ := e
    simp only [List.map_cons, List.mem_cons, not_or] at h
    simp [updWindow, h.1, ih h.2]

theorem buildWindows_foldl_keys_nodup (w : ℚ) :
    ∀ (dets : List Detection) (acc : List (ℤ × List (List String))),
      (acc.map Prod.fst).Nodup →
      ((dets.foldl (fun a det => updWindow ⌊det.time / w⌋ det.skus a) acc).map
        Prod.fst).Nodup := by
  intro dets
  induction dets with
  | nil => intro acc h; exact h
  | cons d rest ih =>
    intro acc h
    simp only [List.foldl_cons]
    refine ih _ ?_
    by_cases hk : ⌊d.time / w⌋ ∈ acc.map Prod.fst
    · rw [updWindow_of_mem _ _ _ hk]
      exact h
    · rw [updWindow_of_not_mem _ _ _ hk]
      simp only [List.map_append, List.map_cons, List.map_nil]
      exact List.nodup_append.mpr ⟨h, List.nodup_singleton _,
        by simpa [List.disjoint_right] using hk⟩

theorem buildWindows_keys_nodup (w : ℚ) (dets : List Detection) :
    ((buildWindows w dets).map Prod.fst).Nodup :=
  buildWindows_foldl_keys_nodup w dets [] List.nodup_nil

theorem buildWindows_foldl_of_fresh (w : ℚ) :
    ∀ (dets : List Detection) (acc : List (ℤ × List (List String))),
      (∀ d ∈ dets, ⌊d.time / w⌋ ∉ acc.map Prod.fst) →
      (dets.map (fun d => ⌊d.time / w⌋)).Nodup →
      dets.foldl (fun a det => updWindow ⌊det.time / w⌋ det.skus a) acc =
        acc ++ dets.map (fun d => (⌊d.time / w⌋, [d.skus])) := by
  intro dets
  induction dets with
  | nil => intro acc _ _; simp
  | cons d rest ih =>
    intro acc hfresh hnodup
    simp only [List.foldl_cons]
    rw [updWindow_of_not_mem _ _ _ (hfresh d (List.mem_cons_self d rest))]
    simp only [List.map_cons, List.nodup_cons] at hnodup
    rw [ih (acc ++ [(⌊d.time / w⌋, [d.skus])]) ?_ hnodup.2]
    · simp
    · intro d' hd'
      simp only [List.map_append, List.map_cons, List.map_nil, List.mem_append,
        List.mem_singleton, not_or]
      refine ⟨hfresh d' (List.mem_cons_of_mem d hd'), ?_⟩
      intro hcontra
      exact hnodup.1 (hcontra ▸ List.mem_map_of_mem (fun d => ⌊d.time / w⌋) hd')

theorem bumpCount_of_mem (s : String) :
    ∀ acc : List (String × ℕ), s ∈ acc.map Prod.fst →
      (bumpCount s acc).map Prod.fst = acc.map Prod.fst := by
  intro acc
  induction acc with
  | nil => intro h; simp at h
  | cons e rest ih =>
    intro h
    obtain ⟨k', c⟩ := e
    by_cases hk : s = k'
    · simp [bumpCount, hk]
    · simp only [List.map_cons, List.mem_cons] at h
      rcases h with h | h
      · exact absurd h hk
      · simp [bumpCount, hk, ih h]

theorem bumpCount_of_not_mem (s : String) :
    ∀ acc : List (String × ℕ), s ∉ acc.map Prod.fst →
      bumpCount s acc = acc ++ [(s, 1)] := by
  intro acc
  induction acc with
  | nil => intro _; rfl
  | cons e rest ih =>
    intro h
    obtain ⟨k', c⟩ := e
    simp only [List.map_cons, List.mem_cons, not_or] at h
    simp [bumpCount, h.1, ih h.2]

theorem bumpCount_foldl_keys_nodup :
    ∀ (skus : List String) (acc : List (String × ℕ)),
      (acc.map Prod.fst).Nodup →
      ((skus.foldl (fun a s => bumpCount s a) acc).map Prod.fst).Nodup := by
  intro skus
  induction skus with
  | nil => intro acc h; exact h
  | cons s rest ih =>
    intro acc h
    simp only [List.foldl_cons]
    refine ih _ ?_
    by_cases hk : s ∈ acc.map Prod.fst
    · rw [bumpCount_of_mem _ _ hk]
      exact h
    · rw [bumpCount_of_not_mem _ _ hk]
      simp only [List.map_append, List.map_cons, List.map_nil]
      exact List.nodup_append.mpr ⟨h, List.nodup_singleton _,
        by simpa [List.disjoint_right] using hk⟩

theorem countSkus_keys_nodup (sku_lists : List (List String)) :
    ((countSkus sku_lists).map Prod.fst).Nodup := by
  suffices h : ∀ (ls : List (List String)) (acc : List (String × ℕ)),
      (acc.map Prod.fst).Nodup →
      ((ls.foldl (fun acc skus => skus.foldl (fun a s => bumpCount s a) acc)
        acc).map Prod.fst).Nodup by
    exact h sku_lists [] List.nodup_nil
  intro ls
  induction ls with
  | nil => intro acc h; exact h
  | cons skus rest ih =>
    intro acc h
    simp only [List.foldl_cons]
    exact ih _ (bumpCount_foldl_keys_nodup skus acc h)

theorem countSkus_singleton_nodup :
    ∀ (skus : List String) (acc : List (String × ℕ)),
      (∀ s ∈ skus, s ∉ acc.map Prod.fst) → skus.Nodup →
      skus.foldl (fun a s => bumpCount s a) acc = acc ++ skus.map (fun s => (s, 1)) := by
  intro skus
  induction skus with
  | nil => intro acc _ _; simp
  | cons s rest ih =>
    intro acc hfresh hnodup
    simp only [List.foldl_cons]
    rw [bumpCount_of_not_mem _ _ (hfresh s (List.mem_cons_self s rest))]
    simp only [List.nodup_cons] at hnodup
    rw [ih (acc ++ [(s, 1)]) ?_ hnodup.2]
    · simp
    · intro s' hs'
      simp only [List.map_append, List.map_cons, List.map_nil, List.mem_append,
        List.mem_singleton, not_or]
      exact ⟨hfresh s' (List.mem_cons_of_mem s hs'),
        fun hcontra => hnodup.1 (hcontra ▸ hs')⟩

theorem countSkus_of_nodup (skus : List String) (h : skus.Nodup) :
    countSkus [skus] = skus.map (fun s => (s, 1)) := by
  have := countSkus_singleton_nodup skus [] (by simp) h
  simpa [countSkus] using this

/-- For a window surviving `windowOut`, its fields in terms of the bucket
entry it came from. -/
theorem windowOut_some (w : ℚ) (min_frames : ℕ) (entry : ℤ × List (List String))
    (win : AggWindow) (h : windowOut w min_frames entry = some win) :
    win.start = (entry.1 : ℚ) * w ∧ win.stop = ((entry.1 : ℚ) + 1) * w ∧
      win.skus ≠ [] ∧ win.skus.Nodup := by
  unfold windowOut at h
  by_cases hfs : ((countSkus entry.2).filter
      (fun p => min_frames ≤ p.2)).map Prod.fst = []
  · simp [hfs] at h
  · simp only [hfs, if_neg, not_false_iff, Option.some_inj] at h
    subst h
    refine ⟨rfl, rfl, hfs, ?_⟩
    have hsub : List.Sublist
        (((countSkus entry.2).filter (fun p => min_frames ≤ p.2)).map Prod.fst)
        ((countSkus entry.2).map Prod.fst) :=
      (List.filter_sublist _).map Prod.fst
    exact (countSkus_keys_nodup entry.2).sublist hsub

theorem floor_intCast_mul_div (k : ℤ) (w : ℚ) (hw : w ≠ 0) :
    ⌊(k : ℚ) * w / w⌋ = k := by
  rw [mul_div_assoc, div_self hw, mul_one, Int.floor_intCast]

theorem filterMap_windowOut_keys_sublist (w : ℚ) (min_frames : ℕ) (hw : w ≠ 0) :
    ∀ B : List (ℤ × List (List String)),
      List.Sublist
        ((B.filterMap (windowOut w min_frames)).map (fun win => ⌊win.start / w⌋))
        (B.map Prod.fst) := by
  intro B
  induction B with
  | nil => simp
  | cons e rest ih =>
    cases he : windowOut w min_frames e with
    | none =>
      simp only [List.filterMap_cons, he, List.map_cons]
      exact ih.cons e.1
    | some win =>
      simp only [List.filterMap_cons, he, List.map_cons]
      have hk : ⌊win.start / w⌋ = e.1 := by
        rw [(windowOut_some w min_frames e win he).1]
        exact floor_intCast_mul_div e.1 w hw
      rw [hk]
      exact ih.cons₂ e.1

theorem filterMap_eq_self_of_some {γ : Type} :
    ∀ (l : List γ) (f : γ → Option γ), (∀ x ∈ l, f x = some x) → l.filterMap f = l := by
  intro l
  induction l with
  | nil => intro f _; rfl
  | cons x rest ih =>
    intro f h
    simp only [List.filterMap_cons, h x (List.mem_cons_self x rest)]
    rw [ih f fun y hy => h y (List.mem_cons_of_mem x hy)]

/-- Claim C2 (amended): for every detection list, every non-zero window
size and every `min_frames`, re-aggregating the aggregated output — each
window read back as a detection at its start time — with the same window
size and `min_frames = 1` reproduces it unchanged.  (With the default
`min_frames = 5` the re-aggregation instead drops every window, see the
counterexample: each aggregated window re-enters as a single detection and
its one vote per sku is below 5.) -/
theorem aggregate_reaggregate (dets : List Detection) (w : ℚ) (min_frames : ℕ)
    (hw : w ≠ 0) :
    aggregate_detections
        (windowsToDetections (aggregate_detections dets w min_frames)) w 1 =
      aggregate_detections dets w min_frames := by
  have hBnodup := buildWindows_keys_nodup w dets
  set B := buildWindows w dets with hB
  set W := B.filterMap (windowOut w min_frames) with hWdef
  have hstruct : ∀ win ∈ W, win.start = (⌊win.start / w⌋ : ℚ) * w ∧
      win.stop = ((⌊win.start / w⌋ : ℚ) + 1) * w ∧ win.skus ≠ [] ∧ win.skus.Nodup := by
    intro win hwin
    obtain ⟨e, heB, he⟩ := List.mem_filterMap.mp hwin
    obtain ⟨h1, h2, h3, h4⟩ := windowOut_some w min_frames e win he
    have hk : ⌊win.start / w⌋ = e.1 := by
      rw [h1]
      exact floor_intCast_mul_div e.1 w hw
    rw [hk]
    exact ⟨h1, h2, h3, h4⟩
  have hkeys : (W.map (fun win => ⌊win.start / w⌋)).Nodup :=
    hBnodup.sublist (filterMap_windowOut_keys_sublist w min_frames hw B)
  have hmapdet : windowsToDetections W =
      W.map (fun win => ({ time := win.start, skus := win.skus } : Detection)) := rfl
  have hbuild : buildWindows w (windowsToDetections W) =
      (windowsToDetections W).map (fun d => (⌊d.time / w⌋, [d.skus])) := by
    refine buildWindows_foldl_of_fresh w _ [] (by simp) ?_
    rw [hmapdet, List.map_map]
    simpa [Function.comp] using hkeys
  have hpoint : ∀ win ∈ W,
      windowOut w 1 (⌊win.start / w⌋, [win.skus]) = some win := by
    intro win hwin
    obtain ⟨h1, h2, h3, h4⟩ := hstruct win hwin
    have hcount : countSkus [win.skus] = win.skus.map (fun s => (s, 1)) :=
      countSkus_of_nodup win.skus h4
    have hfilter : ((win.skus.map (fun s => (s, 1))).filter
        (fun p => (1 : ℕ) ≤ p.2)).map Prod.fst = win.skus := by
      rw [List.filter_eq_self.mpr (by intro p hp; obtain ⟨s, _, rfl⟩ := List.mem_map.mp hp; simp)]
      rw [List.map_map]
      exact List.map_id _
    unfold windowOut
    simp only [hcount, hfilter, h3, if_neg, not_false_iff]
    congr 1
    obtain ⟨ws, wp, wk⟩ := win
    simp only at h1 h2 ⊢
    rw [← h1, ← h2]
  calc aggregate_detections (windowsToDetections W) w 1
      = (buildWindows w (windowsToDetections W)).filterMap (windowOut w 1) := rfl
    _ = ((windowsToDetections W).map
          (fun d => (⌊d.time / w⌋, [d.skus]))).filterMap (windowOut w 1) := by
        rw [hbuild]
    _ = W.filterMap (fun win => windowOut w 1 (⌊win.start / w⌋, [win.skus])) := by
        rw [hmapdet, List.map_map, List.filterMap_map]
        rfl
    _ = W := filterMap_eq_self_of_some W _ hpoint

/-! ## Claim theorems -/

/-- Claim C1, counterexample: with `fps = 2`, `frame_every_seconds = 1` and a
catalog product matched by every frame, the effective
`_detect_products_in_video` matches both frame 0 (timestamp 0.0) and frame 1
(timestamp 0.5) against the catalog, although both timestamps truncate to
integer second 0 — so two frames in the same integer second are both
matched, contradicting the claimed at-most-one-frame-per-second sampling. -/
theorem C1_counterexample :
    detect_products_in_video (fun (_ : ℕ) (_ : ℕ) => [⟨1, 2⟩])
        [("P1", some (⟨"Cola", some 0, "P1"⟩ : ProductData ℕ))] 2
        [some 0, some 1] 1 1 =
      [⟨0, ["Cola"]⟩, ⟨1/2, ["Cola"]⟩] ∧
      ⌊(0 : ℚ)⌋ = ⌊(1/2 : ℚ)⌋ := by
  have hrg : ratioGood [(⟨1, 2⟩ : MatchPair)] = 1 := by
    have : ((1 : ℚ) < 3/4 * 2) := by norm_num
    simp [ratioGood, List.filter_cons, this]
  have hvis : ∀ q : ℕ, visibleProducts (fun (_ : ℕ) (_ : ℕ) => [(⟨1, 2⟩ : MatchPair)])
      [("P1", some (⟨"Cola", some 0, "P1"⟩ : ProductData ℕ))] q 1 = ["Cola"] := by
    intro q
    simp [visibleProducts, hrg]
  have h0 : (((0 : ℕ) : ℚ)) / 2 = 0 := by norm_num
  have h1 : (((0 : ℕ) + 1 : ℕ) : ℚ) / 2 = 1/2 := by push_cast; norm_num
  have hr0 : round2 0 = 0 := by norm_num [round2]
  have hrhalf : round2 (1/2) = 1/2 := by norm_num [round2]
  refine ⟨?_, by norm_num⟩
  show detectLoop (fun (_ : ℕ) (_ : ℕ) => [(⟨1, 2⟩ : MatchPair)])
      [("P1", some (⟨"Cola", some 0, "P1"⟩ : ProductData ℕ))] 2 1 1 0
      [some 0, some 1] = _
  simp only [detectLoop, Int.emod_one, if_pos, hvis, h0, h1, hr0, hrhalf]
  simp

/-- Claim C1 (amended): with the default `frame_every_seconds = 1` the
sampling guard `int(time_sec) % frame_every_seconds == 0` holds for every
frame, so the video sampler matches every decoded frame against the
catalog (not at most one per integer second). -/
theorem C1_amended {α β : Type} (knn : α → β → List MatchPair)
    (db : List (String × Option (ProductData α))) (fps : ℚ) (min_matches : ℕ)
    (frames : List (Option β)) :
    detect_products_in_video knn db fps frames 1 min_matches =
      detectLoopEveryFrame knn db fps min_matches 0 frames := by
  suffices h : ∀ (i : ℕ) (fr : List (Option β)),
      detectLoop knn db fps 1 min_matches i fr =
        detectLoopEveryFrame knn db fps min_matches i fr from h 0 frames
  intro i fr
  induction fr generalizing i with
  | nil => rfl
  | cons f rest ih =>
    simp only [detectLoop, detectLoopEveryFrame, Int.emod_one, if_pos]
    rw [ih]

/-- Claim C2, counterexample: five detections at time 0 of product "A"
aggregate (window 1.0, min_frames 5) to one window, but re-aggregating that
output with the same parameters yields the empty list (each window carries
one vote, below min_frames = 5), so aggregation is not idempotent as
claimed. -/
theorem C2_counterexample :
    aggregate_detections
        (windowsToDetections
          (aggregate_detections
            [⟨0, ["A"]⟩, ⟨0, ["A"]⟩, ⟨0, ["A"]⟩, ⟨0, ["A"]⟩, ⟨0, ["A"]⟩] 1 5)) 1 5 ≠
      aggregate_detections
        [⟨0, ["A"]⟩, ⟨0, ["A"]⟩, ⟨0, ["A"]⟩, ⟨0, ["A"]⟩, ⟨0, ["A"]⟩] 1 5 := by
  have hkey : ⌊(0 : ℚ) / 1⌋ = 0 := by norm_num
  have hR : aggregate_detections
      [⟨0, ["A"]⟩, ⟨0, ["A"]⟩, ⟨0, ["A"]⟩, ⟨0, ["A"]⟩, ⟨0, ["A"]⟩] 1 5 =
      [⟨0, 1, ["A"]⟩] := by
    norm_num [aggregate_detections, buildWindows, updWindow, windowOut,
      countSkus, bumpCount, hkey, List.filterMap_cons, List.foldl_cons]
  rw [hR]
  have hL : aggregate_detections (windowsToDetections [⟨0, 1, ["A"]⟩]) 1 5 = [] := by
    norm_num [aggregate_detections, windowsToDetections, buildWindows, updWindow,
      windowOut, countSkus, bumpCount, hkey, List.filterMap_cons, List.foldl_cons]
  rw [hL]
  simp

/-- Claim C2 witness: a concrete instance of the amended idempotence. -/
theorem C2_witness :
    aggregate_detections
        (windowsToDetections
          (aggregate_detections
            [⟨0, ["A"]⟩, ⟨0, ["A"]⟩, ⟨0, ["A"]⟩, ⟨0, ["A"]⟩, ⟨0, ["A"]⟩] 1 5)) 1 1 =
      aggregate_detections
        [⟨0, ["A"]⟩, ⟨0, ["A"]⟩, ⟨0, ["A"]⟩, ⟨0, ["A"]⟩, ⟨0, ["A"]⟩] 1 5 :=
  aggregate_reaggregate
    [⟨0, ["A"]⟩, ⟨0, ["A"]⟩, ⟨0, ["A"]⟩, ⟨0, ["A"]⟩, ⟨0, ["A"]⟩] 1 5 (by norm_num)

/-- Claim C3, counterexample: `save_database` writes the store file
directly (`joblib.dump(self.database, self.storage_path)`), so a crash in
the middle of that write leaves the store file half-written — the
half-written state is reachable at a crash point, contradicting the
claimed write-then-rename atomicity. -/
theorem C3_counterexample :
    StoreFileState.halfWritten ∈
      crashStates "sift_data.pkl" (save_database_ops "sift_data.pkl")
        StoreFileState.oldContent := by
  decide

/-- Claim C3 (amended): `save_database` persists by a single direct write
to the storage path with no temporary file and no rename, so a crash can
leave the store file old, half-written, or new; the write-then-rename
mechanism the claim describes (modelled from the spec) would exclude the
half-written state. -/
theorem C3_amended (p : String) :
    crashStates p (save_database_ops p) StoreFileState.oldContent =
        [StoreFileState.oldContent, StoreFileState.halfWritten,
          StoreFileState.newContent] ∧
      ∀ tmp : String, tmp ≠ p →
        StoreFileState.halfWritten ∉
          crashStates p (write_then_rename_ops tmp p) StoreFileState.oldContent := by
  constructor
  · simp [crashStates, save_database_ops, applyFsOp]
  · intro tmp htmp
    simp [crashStates, write_then_rename_ops, applyFsOp, htmp]

/-- Claim C3 witness: the amended statement at the concrete storage path,
with a distinct temporary path. -/
theorem C3_witness :
    StoreFileState.halfWritten ∉
      crashStates "sift_data.pkl"
        (write_then_rename_ops "sift_data.pkl.tmp" "sift_data.pkl")
        StoreFileState.oldContent :=
  (C3_amended "sift_data.pkl").2 "sift_data.pkl.tmp" (by decide)

/-- Claim C4: for every extractor, target and tolerance, the calibrator
either returns a best count within tolerance of the target or has
evaluated the extractor exactly 8 times (the full iteration budget), and
every evaluation except possibly the last was out of tolerance — it stops
early on the first midpoint falling within tolerance. -/
theorem C4_tolerance_or_budget (f : ℚ → ℤ) (target tol : ℤ) :
    (|(find_optimal_threshold f target tol).bestCount - target| ≤ tol ∨
        (find_optimal_threshold f target tol).evals.length = 8) ∧
      ∀ p ∈ (find_optimal_threshold f target tol).evals.dropLast,
        tol < |p.2 - target| := by
  constructor
  · rcases calibLoop_evals_len_or_tol f target tol 8 calibInit with h | h
    · exact Or.inr (by simpa [find_optimal_threshold, calibInit] using h)
    · exact Or.inl h
  · exact calibLoop_early_stop f target tol 8 calibInit (by simp [calibInit])

/-- Claim C4 witness: with a constant extractor hitting the target, the
calibrator is within tolerance (stopping early). -/
theorem C4_witness :
    |(find_optimal_threshold (fun _ => 1500) 1500 50).bestCount - 1500| ≤ 50 ∨
      (find_optimal_threshold (fun _ => 1500) 1500 50).evals.length = 8 :=
  (C4_tolerance_or_budget (fun _ => 1500) 1500 50).1

/-- Claim C5: the returned `(θ, count)` pair is one of the evaluated
midpoints, and the returned count minimizes the absolute distance to the
target over all midpoint evaluations the bisection performed. -/
theorem C5_best_of_all_evals (f : ℚ → ℤ) (target tol : ℤ) :
    ((find_optimal_threshold f target tol).bestTh,
        (find_optimal_threshold f target tol).bestCount) ∈
        (find_optimal_threshold f target tol).evals ∧
      ∀ p ∈ (find_optimal_threshold f target tol).evals,
        |(find_optimal_threshold f target tol).bestCount - target| ≤
          |p.2 - target| := by
  have hne : (find_optimal_threshold f target tol).evals ≠ [] :=
    calibLoop_succ_evals_ne_nil f target tol 7 calibInit
  rcases calibLoop_best_inv f target tol 8 calibInit (Or.inl rfl) with hnil | h
  · exact absurd hnil hne
  · exact h

/-- Claim C5 witness: the returned pair is an evaluated midpoint at a
concrete extractor. -/
theorem C5_witness :
    ((find_optimal_threshold (fun _ => 1200) 1500 50).bestTh,
        (find_optimal_threshold (fun _ => 1200) 1500 50).bestCount) ∈
      (find_optimal_threshold (fun _ => 1200) 1500 50).evals :=
  (C5_best_of_all_evals (fun _ => 1200) 1500 50).1

/-- Claim C6, counterexample: with `min_match_count = 0` and a catalog
whose single product scores 0 against the query (no ratio-test survivor),
the winning score 0 is at least `min_match_count`, the first product
attaining the maximum exists, and yet `identify_product` returns no
product — `best_match` is only set on a strict improvement over the
initial 0. -/
theorem C6_counterexample :
    identify_core (fun (_ : ℕ) (_ : ℕ) => [])
        [("P1", some (⟨"Cola", some 0, "P1"⟩ : ProductData ℕ))] (some (0 : ℕ)) 0 =
        (none, 0) ∧
      winningScore (fun (_ : ℕ) (_ : ℕ) => []) (0 : ℕ)
        [("P1", some (⟨"Cola", some 0, "P1"⟩ : ProductData ℕ))] = 0 ∧
      (([("P1", some (⟨"Cola", some 0, "P1"⟩ : ProductData ℕ))].find?
          (fun e => entryScore (fun (_ : ℕ) (_ : ℕ) => []) (0 : ℕ) e == 0)).bind
        prodInfo) = some ("Cola", "P1") := by
  decide

/-- Claim C6 (amended): when the winning ratio-test score over the whole
catalog is strictly below `min_match_count`, `identify_product` reports no
match while returning that winning score; when the winning score is at
least `min_match_count` and additionally positive, it returns the first
product (in database iteration order) attaining the winning score,
together with that score. -/
theorem C6_amended {α β : Type} (knn : α → β → List MatchPair)
    (db : List (String × Option (ProductData α))) (q : β) (min_match_count : ℕ) :
    (winningScore knn q db < min_match_count →
        identify_core knn db (some q) min_match_count =
          (none, winningScore knn q db)) ∧
      (min_match_count ≤ winningScore knn q db → 1 ≤ winningScore knn q db →
        identify_core knn db (some q) min_match_count =
            ((db.find? (fun e => entryScore knn q e == winningScore knn q db)).bind
                prodInfo,
              winningScore knn q db) ∧
          ∃ e, db.find? (fun e => entryScore knn q e == winningScore knn q db) =
              some e ∧
            (prodInfo e).isSome) := by
  obtain ⟨hA, hB, hC⟩ := identifyFold_spec knn q db none 0
  have hw : (identifyFold knn q db (none, 0)).2 = winningScore knn q db := hA
  constructor
  · intro h
    simp only [identify_core]
    rw [hw, if_neg (not_le.mpr h)]
  · intro hminc hpos
    obtain ⟨e0, he0, hge0⟩ : ∃ e ∈ db, entryScore knn q e = winningScore knn q db := by
      rcases foldl_max_eq_init_or_mem (entryScore knn q) db 0 with h0 | hfound
      · have h0' : winningScore knn q db = 0 := h0
        omega
      · exact hfound
    have hex : ∃ e ∈ db, 0 < entryScore knn q e := ⟨e0, he0, by omega⟩
    have h1 := hC hex
    rw [hw] at h1
    have hsome : (db.find?
        (fun e => entryScore knn q e == winningScore knn q db)).isSome := by
      apply List.find?_isSome.mpr
      exact ⟨e0, he0, by simp [hge0]⟩
    obtain ⟨e, hee⟩ := Option.isSome_iff_exists.mp hsome
    have hpe : entryScore knn q e = winningScore knn q db := by
      have := List.find?_some hee
      simpa using this
    refine ⟨?_, e, hee, prodInfo_isSome_of_score_pos knn q e (by omega)⟩
    simp only [identify_core]
    rw [hw, if_pos hminc]
    exact Prod.ext h1 hw

/-- Claim C6 witness: with a catalog product scoring 12 against the query
and `min_match_count = 10`, identification returns the first product
attaining the winning score. -/
theorem C6_witness :
    identify_core (fun (_ : ℕ) (_ : ℕ) => List.replicate 12 ⟨1, 2⟩)
        [("P1", some (⟨"Cola", some 0, "P1"⟩ : ProductData ℕ))] (some (0 : ℕ)) 10 =
      (([("P1", some (⟨"Cola", some 0, "P1"⟩ : ProductData ℕ))].find?
          (fun e => entryScore (fun (_ : ℕ) (_ : ℕ) => List.replicate 12 ⟨1, 2⟩)
            (0 : ℕ) e ==
              winningScore (fun (_ : ℕ) (_ : ℕ) => List.replicate 12 ⟨1, 2⟩) (0 : ℕ)
                [("P1", some (⟨"Cola", some 0, "P1"⟩ : ProductData ℕ))])).bind
          prodInfo,
        winningScore (fun (_ : ℕ) (_ : ℕ) => List.replicate 12 ⟨1, 2⟩) (0 : ℕ)
          [("P1", some (⟨"Cola", some 0, "P1"⟩ : ProductData ℕ))]) :=
  by
  have hrg : ∀ n : ℕ, ratioGood (List.replicate n ⟨1, 2⟩) = n := by
    intro n
    unfold ratioGood
    rw [List.filter_eq_self.mpr ?_]
    · exact List.length_replicate n _
    · intro p hp
      rw [List.eq_of_mem_replicate hp]
      simp only [decide_eq_true_eq]
      norm_num
  have hw12 : winningScore (fun (_ : ℕ) (_ : ℕ) => List.replicate 12 ⟨1, 2⟩) (0 : ℕ)
      [("P1", some (⟨"Cola", some 0, "P1"⟩ : ProductData ℕ))] = 12 := by
    show max 0 (ratioGood (List.replicate 12 ⟨1, 2⟩)) = 12
    rw [hrg 12]
    rfl
  exact ((C6_amended (fun (_ : ℕ) (_ : ℕ) => List.replicate 12 ⟨1, 2⟩)
      [("P1", some (⟨"Cola", some 0, "P1"⟩ : ProductData ℕ))] 0 10).2
    (by rw [hw12]; norm_num) (by rw [hw12]; norm_num)).1

/-- Claim C7: when the extractor returns no descriptors for the
registration input, `register_product` fails with the
no-features-detected message and the engine's catalog state is unchanged:
the database has no entry added or replaced, nothing is persisted, and the
parallel CSV name listing is untouched. -/
theorem C7_register_no_features {α Img Mask : Type}
    (extract : ℚ × ℕ → Img → Option Mask → Option α)
    (name product_id : String) (image_bgr : Img) (mask : Option Mask)
    (ct : ℚ) (et : ℕ) (s : EngineState α)
    (h : extract (if ct ≠ 1/25 ∨ et ≠ 10 then (ct, et) else defaultSiftConfig)
      image_bgr mask = none) :
    (register_product extract name product_id image_bgr mask ct et s).1 =
        (false, "No features detected in image.") ∧
      (register_product extract name product_id image_bgr mask ct et s).2.database =
        s.database ∧
      (register_product extract name product_id image_bgr mask ct et s).2.csvListing =
        s.csvListing ∧
      (register_product extract name product_id image_bgr mask ct et s).2.persistCount =
        s.persistCount := by
  simp only [register_product]
  rw [h]
  simp

/-- Claim C7 witness: a concrete no-features registration leaves the empty
catalog empty. -/
theorem C7_witness :
    (register_product (fun _ (_ : Unit) (_ : Option Unit) => (none : Option ℕ))
        "Cola" "P1" () none (1/10) 10
        ⟨defaultSiftConfig, [], [], 0⟩).2.database =
      ([] : List (String × Option (ProductData ℕ))) :=
  (C7_register_no_features (fun _ _ _ => none) "Cola" "P1" () none (1/10) 10
    ⟨defaultSiftConfig, [], [], 0⟩ rfl).2.1

/-- Claim C8: on the catalog `[(A1, "Coca-Cola"), (A2, "Cola")]` and the
text "Me gusta la Coca-Cola", the name annotator annotates only the longer
match "Coca-Cola" with A1's marker and never also annotates the "Cola"
inside it with A2's marker; entries are tried longest name first
(the sorted catalog puts "Coca-Cola" before "Cola") and the marker for A2
is suppressed by the 50-character lookahead that finds A1's marker already
following. -/
theorem C8_coca_cola :
    annotate_text_with_csv [("A1", "Coca-Cola"), ("A2", "Cola")]
        "Me gusta la Coca-Cola" false = "Me gusta la Coca-Cola (SKU:A1)" ∧
      sortByNameLenDesc [("A1", "Coca-Cola"), ("A2", "Cola")] =
        [("A1", "Coca-Cola"), ("A2", "Cola")] ∧
      containsSub "(SKU:A2)".toList "Me gusta la Coca-Cola (SKU:A1)".toList =
        false := by
  refine ⟨?_, ?_, ?_⟩ <;> decide

/-- Claim C9: each transcript segment whose text has fewer than
`min_words_text` whitespace-delimited tokens is passed through unchanged
by `_annotate_text` — its output part is exactly the original text, with
no product reference appended — regardless of the aggregated windows. -/
theorem C9_short_segment_unchanged (segments : List TranscriptSegment)
    (detections : List AggWindow) (min_words_text : ℕ) (min_presence : ℚ) :
    List.Forall₂
      (fun seg out => countWords seg.text < min_words_text → out = seg.text)
      segments (annotateParts segments detections min_words_text min_presence) := by
  induction segments with
  | nil => exact List.Forall₂.nil
  | cons seg rest ih =>
    refine List.Forall₂.cons ?_ ih
    intro h
    simp only [processSegment, if_pos h]

/-- Claim C9 witness: a one-word segment is returned unchanged. -/
theorem C9_witness :
    List.Forall₂
      (fun (seg : TranscriptSegment) (out : String) =>
        countWords seg.text < 4 → out = seg.text)
      [(⟨0, 1, "hola"⟩ : TranscriptSegment)]
      (annotateParts [(⟨0, 1, "hola"⟩ : TranscriptSegment)] [] 4 (3/5)) :=
  C9_short_segment_unchanged [(⟨0, 1, "hola"⟩ : TranscriptSegment)] [] 4 (3/5)

/-- Claim C10: registering a product with a non-default contrast threshold
replaces the engine's single shared extractor configuration with
`(contrast_threshold, edge_threshold)`, and every subsequent
`identify_product` call on the resulting engine state extracts the query
descriptors with exactly that configuration — identification is not
independent of prior registrations. -/
theorem C10_identify_uses_last_registration_config {α Img Mask : Type}
    (extract : ℚ × ℕ → Img → Option Mask → Option α) (knn : α → α → List MatchPair)
    (name product_id : String) (image_bgr : Img) (mask : Option Mask)
    (ct : ℚ) (et : ℕ) (s : EngineState α)
    (h : ct ≠ 1/25 ∨ et ≠ 10) :
    (register_product extract name product_id image_bgr mask ct et s).2.siftConfig =
        (ct, et) ∧
      ∀ (query : Img) (min_match_count : ℕ),
        identify_product extract knn
            (register_product extract name product_id image_bgr mask ct et s).2
            query min_match_count =
          identify_core knn
            (register_product extract name product_id image_bgr mask ct et
              s).2.database
            (extract (ct, et) query none) min_match_count := by
  have hcfg : (register_product extract name product_id image_bgr mask ct et
      s).2.siftConfig = (ct, et) := by
    simp only [register_product, if_pos h]
    cases hx : extract (ct, et) image_bgr mask <;> simp
  exact ⟨hcfg, fun query minc => by simp only [identify_product, hcfg]⟩

/-- Claim C10 witness: a concrete registration at contrast threshold 0.1
leaves the shared extractor configured at `(0.1, 10)`. -/
theorem C10_witness :
    (register_product
        (fun cfg (_ : Unit) (_ : Option Unit) =>
          if cfg = ((1 : ℚ)/10, 10) then some (0 : ℕ) else none)
        "Cola" "P1" () none (1/10) 10
        ⟨defaultSiftConfig, [], [], 0⟩).2.siftConfig = (1/10, 10) :=
  (C10_identify_uses_last_registration_config
      (fun cfg (_ : Unit) (_ : Option Unit) =>
        if cfg = ((1 : ℚ)/10, 10) then some (0 : ℕ) else none)
      (fun _ _ => []) "Cola" "P1" () none (1/10) 10
      ⟨defaultSiftConfig, [], [], 0⟩ (Or.inl (by norm_num))).1

end Spec2Proof
